import Mathlib

/-!
A shallow embedding of the hero mini-game in `src/script.js` ("Catch the
Nodes").  Orbs drift inside a bounded play area; activating an orb scores
points, chained hits within a combo window multiply the award, a round
lasts twenty seconds, and the best score is persisted.  Positions,
velocities and timestamps are modelled over `ℚ`; the DOM elements, toasts
and styling are display-only and are not part of the model.
-/

namespace CatchNodes

/-- Constant `ROUND_SECONDS = 20` from the settings block. -/
def ROUND_SECONDS : ℤ := 20

/-- Constant `ORB_COUNT = 6` from the settings block. -/
def ORB_COUNT : ℕ := 6

/-- Constant `BASE_POINTS = 10` from the settings block. -/
def BASE_POINTS : ℕ := 10

/-- Constant `COMBO_WINDOW_MS = 800` from the settings block. -/
def COMBO_WINDOW_MS : ℚ := 800

/-- The inline combo cap `5` from `Math.min(combo, 5)` in `hitOrb`. -/
def COMBO_CAP : ℕ := 5

/-- Constant `SPEED_MIN = 40` (px/s) from the settings block. -/
def SPEED_MIN : ℚ := 40

/-- Constant `SPEED_MAX = 140` (px/s) from the settings block. -/
def SPEED_MAX : ℚ := 140

/-- The inner margin `12` used by the bounce checks in `step` and by the
clamping in the resize listener. -/
def MARGIN : ℚ := 12

/-- One drifting target: the `{ el, x, y, vx, vy, alive }` object built by
`makeOrb`.  The DOM element is replaced by a numeric identity `id`
(standing for object identity in JavaScript); every spawn draws a fresh
identity from a counter. -/
structure Orb where
  id : ℕ
  x : ℚ
  y : ℚ
  vx : ℚ
  vy : ℚ
  alive : Bool
deriving DecidableEq

/-- The random draws one `makeOrb` call consumes: `u, v` are the
`Math.random()` outcomes behind `rand(20, bounds.w - 20)` and
`rand(20, bounds.h - 20)`, `sp` is the sampled `rand(SPEED_MIN, SPEED_MAX)`
speed, and `c, s` stand for the cosine and sine of the sampled angle. -/
structure Rand where
  u : ℚ
  v : ℚ
  sp : ℚ
  c : ℚ
  s : ℚ
deriving DecidableEq

/-- Width and height of the play area as last measured (`bounds`). -/
structure Bounds where
  w : ℚ
  h : ℚ
deriving DecidableEq

/-- `makeOrb` from the source: position sampled by
`rand(20, size - 20) = random * ((size - 20) - 20) + 20`, speed forced to
`0` under reduced motion, velocity `(cos θ · speed, sin θ · speed)`, alive. -/
def makeOrb (idn : ℕ) (reduced : Bool) (b : Bounds) (r : Rand) : Orb :=
  let speed : ℚ := if reduced then 0 else r.sp
  { id := idn
    x := r.u * (b.w - 20 - 20) + 20
    y := r.v * (b.h - 20 - 20) + 20
    vx := r.c * speed
    vy := r.s * speed
    alive := true }

/-- The `clamp` utility: `Math.max(min, Math.min(max, v))`. -/
def clamp (v mn mx : ℚ) : ℚ := max mn (min mx v)

/-- The module-level mutable state of the script: score, persisted best,
countdown, running flag, combo bookkeeping, the `orbs` array, the measured
`bounds`, the reduced-motion media flag, plus two bookkeeping fields of
the embedding: `pending` lists the respawn `setTimeout` callbacks not yet
fired (each remembering the hit orb's identity, in schedule order), and
`nextId` feeds fresh identities to `makeOrb`. -/
structure GameState where
  score : ℕ
  best : ℕ
  timeLeft : ℤ
  running : Bool
  lastHitTime : ℚ
  combo : ℕ
  orbs : List Orb
  pending : List ℕ
  nextId : ℕ
  bounds : Bounds
  reduced : Bool
deriving DecidableEq

/-- `hitOrb(orb)`: no-op unless the round is running and the orb is alive;
otherwise update the combo against the `COMBO_WINDOW_MS` gap, record the
hit time, add `BASE_POINTS * (1 + min(combo, 5))` points, mark the orb
dead, and schedule a respawn callback for it.  The clicked orb is located
by its identity in the `orbs` array. -/
def hitOrb (g : GameState) (oid : ℕ) (t : ℚ) : GameState :=
  match g.orbs.find? (fun o => o.id == oid) with
  | none => g
  | some orb =>
    if g.running && orb.alive then
      let combo1 : ℕ := if t - g.lastHitTime ≤ COMBO_WINDOW_MS then g.combo + 1 else 0
      let points : ℕ := BASE_POINTS * (1 + min combo1 COMBO_CAP)
      { g with
        combo := combo1
        lastHitTime := t
        score := g.score + points
        orbs := g.orbs.map fun o => if o.id == oid then { o with alive := false } else o
        pending := g.pending ++ [oid] }
    else g

/-- The respawn `setTimeout` callback scheduled by `hitOrb`, firing as the
`k`-th entry of the pending queue: the fired callback is consumed; if the
round is no longer running nothing else happens (`if (!running) return`);
otherwise the remembered orb is spliced out of `orbs` when still present
(`indexOf` / `splice`) and one fresh orb is pushed unconditionally. -/
def respawnFire (g : GameState) (k : ℕ) (r : Rand) : GameState :=
  match g.pending[k]? with
  | none => g
  | some oid =>
    let g1 := { g with pending := g.pending.eraseIdx k }
    if g1.running then
      { g1 with
        orbs := g1.orbs.eraseP (fun o => o.id == oid) ++ [makeOrb g1.nextId g1.reduced g1.bounds r]
        nextId := g1.nextId + 1 }
    else g1

/-- The per-orb body of `step`: integrate position by `v · dt`, then the
four bounce checks in source order (left, top, right, bottom), each
clamping the coordinate to the margin and forcing the velocity component
away from the crossed edge (`Math.abs` / `-Math.abs`).  Dead orbs are
skipped (`continue`). -/
def stepOrb (b : Bounds) (dt : ℚ) (o : Orb) : Orb :=
  if o.alive then
    let x1 := o.x + o.vx * dt
    let y1 := o.y + o.vy * dt
    let x2 := if x1 < MARGIN then MARGIN else x1
    let vx2 := if x1 < MARGIN then |o.vx| else o.vx
    let y2 := if y1 < MARGIN then MARGIN else y1
    let vy2 := if y1 < MARGIN then |o.vy| else o.vy
    let x3 := if x2 > b.w - MARGIN then b.w - MARGIN else x2
    let vx3 := if x2 > b.w - MARGIN then -|vx2| else vx2
    let y3 := if y2 > b.h - MARGIN then b.h - MARGIN else y2
    let vy3 := if y2 > b.h - MARGIN then -|vy2| else vy2
    { o with x := x3, y := y3, vx := vx3, vy := vy3 }
  else o

/-- One `step` frame: no-op unless running; the delta is capped at `0.032`
seconds; every orb in the array is advanced by `stepOrb`. -/
def step (g : GameState) (dtRaw : ℚ) : GameState :=
  if g.running then
    { g with orbs := g.orbs.map (stepOrb g.bounds (min (32/1000 : ℚ) dtRaw)) }
  else g

/-- `clearGame`: cancels the frame and interval schedulers and empties the
`orbs` array.  Pending respawn timeouts are *not* cancelled there. -/
def clearGame (g : GameState) : GameState :=
  { g with orbs := [] }

/-- `startGame`: re-measures the bounds, clears the previous round, sets
`running`, resets score, combo and the last-hit reference to zero, spawns
`ORB_COUNT` fresh orbs and restarts the countdown (`startTimer`). -/
def startGame (g : GameState) (b : Bounds) (rs : ℕ → Rand) : GameState :=
  let g1 := clearGame { g with bounds := b }
  let g2 := { g1 with running := true, score := 0, combo := 0, lastHitTime := 0 }
  { g2 with
    orbs := (List.range ORB_COUNT).map fun i => makeOrb (g2.nextId + i) g2.reduced g2.bounds (rs i)
    nextId := g2.nextId + ORB_COUNT
    timeLeft := ROUND_SECONDS }

/-- `endGame`: stop running, clear the round, and persist the final score
as the new best exactly when it exceeds the stored best
(`if (score > best)`). -/
def endGame (g : GameState) : GameState :=
  let g1 := clearGame { g with running := false }
  if g1.best < g1.score then { g1 with best := g1.score } else g1

/-- The `setInterval` countdown body: decrement `timeLeft` and end the
round once it reaches zero.  The interval only exists while the round is
running (set in `startGame`, cleared by `clearGame`), hence the guard. -/
def timerTick (g : GameState) : GameState :=
  if g.running then
    let g1 := { g with timeLeft := g.timeLeft - 1 }
    if g1.timeLeft ≤ 0 then endGame g1 else g1
  else g

/-- The `resize` listener: re-measure bounds and clamp every orb back into
the padded range on both axes. -/
def resize (g : GameState) (b : Bounds) : GameState :=
  { g with
    bounds := b
    orbs := g.orbs.map fun o =>
      { o with x := clamp o.x MARGIN (b.w - MARGIN), y := clamp o.y MARGIN (b.h - MARGIN) } }

/-- The external events that drive the script: a pointer/keyboard hit on
the orb with identity `oid` at clock time `t` (milliseconds of
`performance.now()`), a pending respawn timeout firing (the `k`-th queue
entry, with its spawn randomness), an animation frame with raw delta
`dtRaw` seconds, a countdown tick, a window resize, and a (re)start
request from the play button or keyboard. -/
inductive Ev where
  | hit (oid : ℕ) (t : ℚ)
  | fire (k : ℕ) (r : Rand)
  | frame (dtRaw : ℚ)
  | second
  | remeasure (b : Bounds)
  | restart (b : Bounds) (rs : ℕ → Rand)

/-- Dispatch one event against the state. -/
def applyEv (g : GameState) : Ev → GameState
  | .hit oid t => hitOrb g oid t
  | .fire k r => respawnFire g k r
  | .frame dtRaw => step g dtRaw
  | .second => timerTick g
  | .remeasure b => resize g b
  | .restart b rs => startGame g b rs

/-- Run a sequence of events left to right. -/
def run (g : GameState) (evs : List Ev) : GameState := evs.foldl applyEv g

/-- The state right after the script loads: zero score and combo, stored
best read from local storage, not running, empty orb set, initial
`measure()` already done. -/
def initState (best0 : ℕ) (b : Bounds) (reduced : Bool) : GameState :=
  { score := 0, best := best0, timeLeft := ROUND_SECONDS, running := false
    lastHitTime := 0, combo := 0, orbs := [], pending := [], nextId := 0
    bounds := b, reduced := reduced }

/-! ### Helper lemmas about single operations -/

/-- Unfolding lemma for a successful `hitOrb`: when the orb is found,
the round is running and the orb is alive, the state is updated as the
source's mutation sequence describes. -/
theorem hitOrb_eq (g : GameState) (oid : ℕ) (t : ℚ) (orb : Orb)
    (hfind : g.orbs.find? (fun o => o.id == oid) = some orb)
    (hrun : g.running = true) (halive : orb.alive = true) :
    hitOrb g oid t =
      { g with
        combo := if t - g.lastHitTime ≤ COMBO_WINDOW_MS then g.combo + 1 else 0
        lastHitTime := t
        score := g.score + BASE_POINTS *
          (1 + min (if t - g.lastHitTime ≤ COMBO_WINDOW_MS then g.combo + 1 else 0) COMBO_CAP)
        orbs := g.orbs.map fun o => if o.id == oid then { o with alive := false } else o
        pending := g.pending ++ [oid] } := by
  unfold hitOrb
  rw [hfind]
  simp [hrun, halive]

/-! ### C1: the four-hit scoring scenario -/

/-- A fixed random draw used by the concrete scenarios. -/
def randZero : Rand := { u := 0, v := 0, sp := 40, c := 1, s := 0 }

/-- A fixed 200 × 200 play area used by the concrete scenarios. -/
def boundsDemo : Bounds := { w := 200, h := 200 }

/-- The state right after pressing play on a freshly loaded page. -/
def demoStart : GameState := startGame (initState 0 boundsDemo false) boundsDemo fun _ => randZero

/-- First hit, at `t = 0` on the combo clock. -/
def demoHit1 : GameState := hitOrb demoStart 0 0

/-- Second hit, at `t = 200`. -/
def demoHit2 : GameState := hitOrb demoHit1 1 200

/-- Third hit, at `t = 500`. -/
def demoHit3 : GameState := hitOrb demoHit2 2 500

/-- Fourth hit, at `t = 1700`. -/
def demoHit4 : GameState := hitOrb demoHit3 3 1700

/-- C1, counterexample: with the last-hit reference freshly reset to `0`,
the first hit at `t = 0` satisfies `t - lastHitTime ≤ 800`, so the combo
becomes `1` (not `0`) and the four hits at `t = 0, 200, 500, 1700` yield a
cumulative score of `100`, not `70` as the claim states. -/
theorem C1_counterexample :
    demoHit1.combo = 1 ∧ demoHit4.score = 100 ∧ demoHit4.score ≠ 70 := by
  norm_num [demoHit4, demoHit3, demoHit2, demoHit1, demoStart, startGame, clearGame,
    initState, hitOrb, makeOrb, boundsDemo, randZero, COMBO_WINDOW_MS, BASE_POINTS,
    COMBO_CAP, ORB_COUNT, ROUND_SECONDS, List.range_succ]

/-- C1, amended: in a round with base points 10, cap 5 and combo window
800 ms, hits at `t = 0, 200, 500, 1700` on the combo clock, starting from
the freshly reset last-hit reference `0`, produce the successive combo
values 1, 2, 3, 0 (the reset reference puts the first hit inside the combo
window), awarded points 20, 30, 40, 10, and a cumulative score of 100. -/
theorem C1_scenario :
    demoHit1.combo = 1 ∧ demoHit2.combo = 2 ∧ demoHit3.combo = 3 ∧ demoHit4.combo = 0 ∧
    demoHit1.score = demoStart.score + 20 ∧ demoHit2.score = demoHit1.score + 30 ∧
    demoHit3.score = demoHit2.score + 40 ∧ demoHit4.score = demoHit3.score + 10 ∧
    demoHit4.score = 100 := by
  norm_num [demoHit4, demoHit3, demoHit2, demoHit1, demoStart, startGame, clearGame,
    initState, hitOrb, makeOrb, boundsDemo, randZero, COMBO_WINDOW_MS, BASE_POINTS,
    COMBO_CAP, ORB_COUNT, ROUND_SECONDS, List.range_succ]

/-! ### C5: the points formula and its saturation -/

/-- C5: every successful hit awards exactly
`BASE_POINTS * (1 + min c COMBO_CAP)` points, where `c` is the combo value
after the combo update of that hit, and the award never exceeds
`BASE_POINTS * (1 + COMBO_CAP)` however long the chain is. -/
theorem C5_points (g : GameState) (oid : ℕ) (t : ℚ) (orb : Orb)
    (hfind : g.orbs.find? (fun o => o.id == oid) = some orb)
    (hrun : g.running = true) (halive : orb.alive = true) :
    (hitOrb g oid t).score
        = g.score + BASE_POINTS * (1 + min (hitOrb g oid t).combo COMBO_CAP) ∧
    (hitOrb g oid t).score ≤ g.score + BASE_POINTS * (1 + COMBO_CAP) := by
  rw [hitOrb_eq g oid t orb hfind hrun halive]
  refine ⟨rfl, ?_⟩
  simp only [BASE_POINTS, COMBO_CAP]
  omega

/-- Witness input for `C5_points`: a running round with one alive orb. -/
def gOne : GameState :=
  { score := 30, best := 0, timeLeft := 10, running := true, lastHitTime := 100
    combo := 7, orbs := [{ id := 0, x := 20, y := 20, vx := 0, vy := 0, alive := true }]
    pending := [], nextId := 1, bounds := boundsDemo, reduced := false }

/-- Witness for `C5_points` at the concrete state `gOne` and `t = 300`. -/
theorem C5_points_witness :
    (hitOrb gOne 0 300).score
        = gOne.score + BASE_POINTS * (1 + min (hitOrb gOne 0 300).combo COMBO_CAP) ∧
    (hitOrb gOne 0 300).score ≤ gOne.score + BASE_POINTS * (1 + COMBO_CAP) :=
  C5_points gOne 0 300 { id := 0, x := 20, y := 20, vx := 0, vy := 0, alive := true }
    (by decide) rfl rfl

/-! ### C6: the combo window rule -/

/-- C6: on a successful hit, a gap strictly larger than the combo window
resets the combo to zero, and a gap within the window increments it by
exactly one; either way the points of this very hit are computed from the
updated combo. -/
theorem C6_combo (g : GameState) (oid : ℕ) (t : ℚ) (orb : Orb)
    (hfind : g.orbs.find? (fun o => o.id == oid) = some orb)
    (hrun : g.running = true) (halive : orb.alive = true) :
    (COMBO_WINDOW_MS < t - g.lastHitTime → (hitOrb g oid t).combo = 0) ∧
    (t - g.lastHitTime ≤ COMBO_WINDOW_MS → (hitOrb g oid t).combo = g.combo + 1) ∧
    (hitOrb g oid t).score = g.score + BASE_POINTS * (1 + min (hitOrb g oid t).combo COMBO_CAP) := by
  rw [hitOrb_eq g oid t orb hfind hrun halive]
  refine ⟨fun h => ?_, fun h => ?_, rfl⟩
  · simp only [if_neg (not_le.mpr h)]
  · simp only [if_pos h]

/-- The gap `300 - 100` lies within the 800 ms combo window. -/
theorem gapSmall : (300 : ℚ) - 100 ≤ COMBO_WINDOW_MS := by
  norm_num [COMBO_WINDOW_MS]

/-- Witness for `C6_combo` at the concrete state `gOne` and `t = 300`. -/
theorem C6_combo_witness : (hitOrb gOne 0 300).combo = gOne.combo + 1 :=
  (C6_combo gOne 0 300 { id := 0, x := 20, y := 20, vx := 0, vy := 0, alive := true }
    (by decide) rfl rfl).2.1 gapSmall

/-! ### C7: best-score persistence at round end -/

/-- C7: ending a round with a final score strictly greater than the stored
best updates the stored best to exactly the final score; ending with a
score at most the stored best leaves the stored best unchanged. -/
theorem C7_best (g : GameState) :
    (g.best < g.score → (endGame g).best = g.score) ∧
    (g.score ≤ g.best → (endGame g).best = g.best) := by
  unfold endGame clearGame
  constructor <;> intro h
  · simp [h]
  · simp [not_lt.mpr h]

/-- Witness for `C7_best`: a round ending at score 50 with stored best 20
persists 50; a round ending at score 50 with stored best 60 keeps 60. -/
theorem C7_best_witness :
    (endGame { gOne with score := 50, best := 20 }).best = 50 ∧
    (endGame { gOne with score := 50, best := 60 }).best = 60 :=
  ⟨(C7_best { gOne with score := 50, best := 20 }).1 (by decide),
   (C7_best { gOne with score := 50, best := 60 }).2 (by decide)⟩

/-! ### C8: the silent no-op guards -/

/-- C8: activating an orb while no round is running is a complete no-op;
activating an orb that is already inactive is a complete no-op; a respawn
callback firing after the round has ended changes none of score, combo,
last-hit timestamp, orb set, or stored best (it is merely consumed from
the timeout queue).  All three are total functions of the state: no error
is raised. -/
theorem C8_noop (g : GameState) (oid : ℕ) (t : ℚ) (k : ℕ) (r : Rand) :
    (g.running = false → hitOrb g oid t = g) ∧
    (∀ orb, g.orbs.find? (fun o => o.id == oid) = some orb → orb.alive = false →
      hitOrb g oid t = g) ∧
    (g.running = false →
      (respawnFire g k r).score = g.score ∧ (respawnFire g k r).combo = g.combo ∧
      (respawnFire g k r).lastHitTime = g.lastHitTime ∧
      (respawnFire g k r).orbs = g.orbs ∧ (respawnFire g k r).best = g.best) := by
  refine ⟨fun hrun => ?_, fun orb hfind hdead => ?_, fun hrun => ?_⟩
  · unfold hitOrb
    cases hf : g.orbs.find? (fun o => o.id == oid) with
    | none => rfl
    | some orb => simp [hrun]
  · unfold hitOrb
    rw [hfind]
    simp [hdead]
  · unfold respawnFire
    cases hk : g.pending[k]? with
    | none => exact ⟨rfl, rfl, rfl, rfl, rfl⟩
    | some oid2 => simp [hrun]

/-- An idle state with one orb and one stale pending respawn callback. -/
def gIdle : GameState :=
  { score := 40, best := 9, timeLeft := 0, running := false, lastHitTime := 100
    combo := 2, orbs := [{ id := 0, x := 20, y := 20, vx := 0, vy := 0, alive := true }]
    pending := [0], nextId := 1, bounds := boundsDemo, reduced := false }

/-- Witness for `C8_noop`: at the idle state `gIdle`, a hit is a no-op and
a firing respawn callback preserves all the listed fields; at the running
state `gOne` with its orb marked dead, a hit is a no-op. -/
theorem C8_noop_witness :
    (hitOrb gIdle 0 300 = gIdle) ∧
    (hitOrb { gOne with orbs := [{ id := 0, x := 20, y := 20, vx := 0, vy := 0, alive := false }] } 0 300
      = { gOne with orbs := [{ id := 0, x := 20, y := 20, vx := 0, vy := 0, alive := false }] }) ∧
    (respawnFire gIdle 0 randZero).score = gIdle.score ∧
    (respawnFire gIdle 0 randZero).orbs = gIdle.orbs :=
  ⟨(C8_noop gIdle 0 300 0 randZero).1 rfl,
   (C8_noop { gOne with orbs := [{ id := 0, x := 20, y := 20, vx := 0, vy := 0, alive := false }] }
      0 300 0 randZero).2.1 { id := 0, x := 20, y := 20, vx := 0, vy := 0, alive := false }
      (by decide) rfl,
   ((C8_noop gIdle 0 300 0 randZero).2.2 rfl).1,
   ((C8_noop gIdle 0 300 0 randZero).2.2 rfl).2.2.2.1⟩

/-! ### C3: reflective bounce inverts exactly the crossed component -/

/-- A coordinate that was at or above the margin and falls below it after
one integration step must have a strictly negative velocity component. -/
theorem vel_neg_of_cross_low {x v dt m : ℚ} (hdt : 0 < dt) (hx : m ≤ x)
    (h : x + v * dt < m) : v < 0 := by
  by_contra hv
  push_neg at hv
  nlinarith [mul_nonneg hv hdt.le]

/-- A coordinate that was at or below the far margin and exceeds it after
one integration step must have a strictly positive velocity component. -/
theorem vel_pos_of_cross_high {x v dt c : ℚ} (hdt : 0 < dt) (hx : x ≤ c)
    (h : c < x + v * dt) : 0 < v := by
  by_contra hv
  push_neg at hv
  nlinarith [mul_nonneg (neg_nonneg.mpr hv) hdt.le]

/-- C3: in a per-frame update of an alive orb that starts inside the
padded bounds of a play area at least 24 px wide and tall, a crossing of
the left or right margin clamps `x` to the crossed margin and inverts the
sign of `vx`; a crossing of the top or bottom margin clamps `y` and
inverts the sign of `vy`; a coordinate that stays inside the margins moves
to its integrated value with its velocity component unchanged.  Taken
together, each boundary crossing inverts exactly the velocity component
perpendicular to the crossed edge and leaves the other one unchanged. -/
theorem C3_bounce (b : Bounds) (dt : ℚ) (o : Orb)
    (halive : o.alive = true) (hdt : 0 < dt)
    (hw : 24 ≤ b.w) (hh : 24 ≤ b.h)
    (hx0 : MARGIN ≤ o.x) (hx1 : o.x ≤ b.w - MARGIN)
    (hy0 : MARGIN ≤ o.y) (hy1 : o.y ≤ b.h - MARGIN) :
    ((o.x + o.vx * dt < MARGIN →
        (stepOrb b dt o).x = MARGIN ∧ (stepOrb b dt o).vx = -o.vx) ∧
     (b.w - MARGIN < o.x + o.vx * dt →
        (stepOrb b dt o).x = b.w - MARGIN ∧ (stepOrb b dt o).vx = -o.vx) ∧
     (MARGIN ≤ o.x + o.vx * dt → o.x + o.vx * dt ≤ b.w - MARGIN →
        (stepOrb b dt o).x = o.x + o.vx * dt ∧ (stepOrb b dt o).vx = o.vx)) ∧
    ((o.y + o.vy * dt < MARGIN →
        (stepOrb b dt o).y = MARGIN ∧ (stepOrb b dt o).vy = -o.vy) ∧
     (b.h - MARGIN < o.y + o.vy * dt →
        (stepOrb b dt o).y = b.h - MARGIN ∧ (stepOrb b dt o).vy = -o.vy) ∧
     (MARGIN ≤ o.y + o.vy * dt → o.y + o.vy * dt ≤ b.h - MARGIN →
        (stepOrb b dt o).y = o.y + o.vy * dt ∧ (stepOrb b dt o).vy = o.vy)) := by
  have hm : MARGIN = (12 : ℚ) := rfl
  unfold stepOrb
  rw [if_pos halive]
  dsimp only
  refine ⟨⟨fun h => ?_, fun h => ?_, fun h1 h2 => ?_⟩,
          ⟨fun h => ?_, fun h => ?_, fun h1 h2 => ?_⟩⟩
  · have hv : o.vx < 0 := vel_neg_of_cross_low hdt hx0 h
    have hc : ¬(MARGIN > b.w - MARGIN) := by rw [hm] at *; push_neg; linarith
    simp only [if_pos h, if_neg hc]
    exact ⟨trivial, abs_of_neg hv⟩
  · have hv : 0 < o.vx := vel_pos_of_cross_high hdt hx1 h
    have hnotlow : ¬(o.x + o.vx * dt < MARGIN) := by rw [hm] at *; push_neg; linarith
    simp only [if_neg hnotlow, if_pos h]
    exact ⟨trivial, by rw [abs_of_pos hv]⟩
  · have hnotlow : ¬(o.x + o.vx * dt < MARGIN) := not_lt.mpr h1
    simp only [if_neg hnotlow, if_neg (not_lt.mpr h2)]
    exact ⟨trivial, trivial⟩
  · have hv : o.vy < 0 := vel_neg_of_cross_low hdt hy0 h
    have hc : ¬(MARGIN > b.h - MARGIN) := by rw [hm] at *; push_neg; linarith
    simp only [if_pos h, if_neg hc]
    exact ⟨trivial, abs_of_neg hv⟩
  · have hv : 0 < o.vy := vel_pos_of_cross_high hdt hy1 h
    have hnotlow : ¬(o.y + o.vy * dt < MARGIN) := by rw [hm] at *; push_neg; linarith
    simp only [if_neg hnotlow, if_pos h]
    exact ⟨trivial, by rw [abs_of_pos hv]⟩
  · have hnotlow : ¬(o.y + o.vy * dt < MARGIN) := not_lt.mpr h1
    simp only [if_neg hnotlow, if_neg (not_lt.mpr h2)]
    exact ⟨trivial, trivial⟩

/-- A concrete orb heading left fast enough to cross the left margin in
one second. -/
def orbLeft : Orb := { id := 0, x := 13, y := 50, vx := -10, vy := 3, alive := true }

/-- `orbLeft` starts inside the padded bounds of `boundsDemo`. -/
theorem orbLeft_inside :
    MARGIN ≤ orbLeft.x ∧ orbLeft.x ≤ boundsDemo.w - MARGIN ∧
    MARGIN ≤ orbLeft.y ∧ orbLeft.y ≤ boundsDemo.h - MARGIN := by
  norm_num [orbLeft, boundsDemo, MARGIN]

/-- After one second `orbLeft` has crossed the left margin. -/
theorem orbLeft_crosses : orbLeft.x + orbLeft.vx * 1 < MARGIN := by
  norm_num [orbLeft, MARGIN]

/-- After one second `orbLeft` stays inside the vertical margins. -/
theorem orbLeft_y_in :
    MARGIN ≤ orbLeft.y + orbLeft.vy * 1 ∧ orbLeft.y + orbLeft.vy * 1 ≤ boundsDemo.h - MARGIN := by
  norm_num [orbLeft, boundsDemo, MARGIN]

/-- Witness for `C3_bounce`: `orbLeft` crosses the left edge of
`boundsDemo` in one step, so `x` is clamped to the margin and `vx` flips
sign, while `vy` is untouched. -/
theorem C3_bounce_witness :
    ((stepOrb boundsDemo 1 orbLeft).x = MARGIN ∧
     (stepOrb boundsDemo 1 orbLeft).vx = -orbLeft.vx) ∧
    ((stepOrb boundsDemo 1 orbLeft).y = orbLeft.y + orbLeft.vy * 1 ∧
     (stepOrb boundsDemo 1 orbLeft).vy = orbLeft.vy) :=
  ⟨(C3_bounce boundsDemo 1 orbLeft rfl one_pos (by decide) (by decide)
      orbLeft_inside.1 orbLeft_inside.2.1 orbLeft_inside.2.2.1 orbLeft_inside.2.2.2).1.1
      orbLeft_crosses,
   (C3_bounce boundsDemo 1 orbLeft rfl one_pos (by decide) (by decide)
      orbLeft_inside.1 orbLeft_inside.2.1 orbLeft_inside.2.2.1 orbLeft_inside.2.2.2).2.2.2
      orbLeft_y_in.1 orbLeft_y_in.2⟩

/-! ### Structural helper lemmas -/

/-- `stepOrb` never changes an orb's identity. -/
theorem stepOrb_id (b : Bounds) (dt : ℚ) (o : Orb) : (stepOrb b dt o).id = o.id := by
  unfold stepOrb
  split <;> rfl

/-- `stepOrb` never changes an orb's alive flag. -/
theorem stepOrb_alive (b : Bounds) (dt : ℚ) (o : Orb) : (stepOrb b dt o).alive = o.alive := by
  unfold stepOrb
  split <;> rfl

/-- `stepOrb` preserves the absolute value of `vx`: the bounce only ever
replaces `vx` by `|vx|` or `-|vx|`. -/
theorem stepOrb_abs_vx (b : Bounds) (dt : ℚ) (o : Orb) :
    |(stepOrb b dt o).vx| = |o.vx| := by
  unfold stepOrb
  split
  · dsimp only
    split_ifs <;> simp [abs_abs, abs_neg]
  · rfl

/-- `stepOrb` preserves the absolute value of `vy`. -/
theorem stepOrb_abs_vy (b : Bounds) (dt : ℚ) (o : Orb) :
    |(stepOrb b dt o).vy| = |o.vy| := by
  unfold stepOrb
  split
  · dsimp only
    split_ifs <;> simp [abs_abs, abs_neg]
  · rfl

/-- Mapping an id-preserving function over a list of orbs leaves the list
of identities unchanged. -/
theorem map_id_eq (f : Orb → Orb) (hf : ∀ o, (f o).id = o.id) :
    ∀ l : List Orb, (l.map f).map Orb.id = l.map Orb.id
  | [] => rfl
  | o :: l => by simp [hf o, map_id_eq f hf l]

/-- Appending one fresh element to a duplicate-free list keeps it
duplicate-free. -/
theorem nodup_append_single {α : Type} {l : List α} {a : α}
    (h : l.Nodup) (ha : a ∉ l) : (l ++ [a]).Nodup := by
  rw [List.nodup_append]
  refine ⟨h, List.nodup_singleton a, ?_⟩
  intro x hx hxa
  rw [List.mem_singleton] at hxa
  subst hxa
  exact ha hx

/-- `hitOrb` is the identity when the orb is not found in the array. -/
theorem hitOrb_none (g : GameState) (oid : ℕ) (t : ℚ)
    (hf : g.orbs.find? (fun o => o.id == oid) = none) : hitOrb g oid t = g := by
  unfold hitOrb
  rw [hf]

/-- `hitOrb` is the identity when the guard `running && alive` fails. -/
theorem hitOrb_guard (g : GameState) (oid : ℕ) (t : ℚ) (orb : Orb)
    (hf : g.orbs.find? (fun o => o.id == oid) = some orb)
    (hg : (g.running && orb.alive) = false) : hitOrb g oid t = g := by
  unfold hitOrb
  rw [hf]
  simp [hg]

/-- Removing the `k`-th entry of a duplicate-free list removes every
occurrence of that entry. -/
theorem not_mem_eraseIdx_self {a : ℕ} :
    ∀ {l : List ℕ} {k : ℕ}, l.Nodup → l[k]? = some a → a ∉ l.eraseIdx k := by
  intro l
  induction l with
  | nil => intro k _ hk; simp at hk
  | cons b t ih =>
    intro k hn hk
    cases k with
    | zero =>
      simp only [List.getElem?_cons_zero, Option.some.injEq] at hk
      subst hk
      simpa [List.eraseIdx] using (List.nodup_cons.mp hn).1
    | succ k =>
      simp only [List.getElem?_cons_succ] at hk
      have hmem : a ∈ t := List.getElem?_mem hk
      have htail := ih (List.nodup_cons.mp hn).2 hk
      simp only [List.eraseIdx_cons_succ, List.mem_cons, not_or]
      exact ⟨fun hab => (List.nodup_cons.mp hn).1 (hab ▸ hmem), htail⟩

/-! ### C2: the active-orb-count invariant -/

/-- The bookkeeping invariant behind the orb-count claim: orb identities
are duplicate-free, the pending respawn queue is duplicate-free, every orb
identity is below the fresh-identity counter, and — while the round runs —
the orbs array has exactly `ORB_COUNT` entries and every pending callback
refers to a dead orb still present in the array. -/
def C2Inv (g : GameState) : Prop :=
  (g.orbs.map Orb.id).Nodup ∧
  g.pending.Nodup ∧
  (∀ o ∈ g.orbs, o.id < g.nextId) ∧
  (g.running = true →
    g.orbs.length = ORB_COUNT ∧
    ∀ oid ∈ g.pending, ∃ o ∈ g.orbs, o.id = oid ∧ o.alive = false)

/-- `hitOrb` preserves the orb-count invariant. -/
theorem C2Inv_hitOrb (g : GameState) (oid : ℕ) (t : ℚ) (h : C2Inv g) :
    C2Inv (hitOrb g oid t) := by
  obtain ⟨h1, h2, h3, h4⟩ := h
  cases hf : g.orbs.find? (fun o => o.id == oid) with
  | none =>
    rw [hitOrb_none g oid t hf]
    exact ⟨h1, h2, h3, h4⟩
  | some orb =>
    by_cases hg : g.running = true ∧ orb.alive = true
    case neg =>
      have hgb : (g.running && orb.alive) = false := by
        cases hx : g.running <;> cases hy : orb.alive <;> simp_all
      rw [hitOrb_guard g oid t orb hf hgb]
      exact ⟨h1, h2, h3, h4⟩
    case pos =>
      obtain ⟨hrun, halive⟩ := hg
      rw [hitOrb_eq g oid t orb hf hrun halive]
      unfold C2Inv
      dsimp only
      have horbmem : orb ∈ g.orbs := List.mem_of_find?_eq_some hf
      have horbid : orb.id = oid := by simpa using List.find?_some hf
      obtain ⟨hlen, hpend⟩ := h4 hrun
      have hfid : ∀ o : Orb,
          (if o.id == oid then { o with alive := false } else o).id = o.id := by
        intro o
        by_cases hb : (o.id == oid) = true <;> simp [hb]
      have hfdead : ∀ o : Orb, o.alive = false →
          (if o.id == oid then { o with alive := false } else o).alive = false := by
        intro o hd
        by_cases hb : (o.id == oid) = true <;> simp [hb, hd]
      have hnotp : oid ∉ g.pending := by
        intro hmem
        obtain ⟨o2, ho2mem, ho2id, ho2dead⟩ := hpend oid hmem
        have ho2orb : o2 = orb :=
          List.inj_on_of_nodup_map h1 ho2mem horbmem (by rw [ho2id, horbid])
        rw [ho2orb, halive] at ho2dead
        simp at ho2dead
      refine ⟨?_, ?_, ?_, fun _ => ⟨?_, ?_⟩⟩
      · rw [map_id_eq _ hfid g.orbs]
        exact h1
      · exact nodup_append_single h2 hnotp
      · intro o hmem
        obtain ⟨o0, ho0, rfl⟩ := List.mem_map.mp hmem
        rw [hfid o0]
        exact h3 o0 ho0
      · simpa using hlen
      · intro oid2 hmem2
        rcases List.mem_append.mp hmem2 with hold | hnew
        · obtain ⟨o2, ho2mem, ho2id, ho2dead⟩ := hpend oid2 hold
          exact ⟨_, List.mem_map_of_mem _ ho2mem, by rw [hfid o2, ho2id],
            hfdead o2 ho2dead⟩
        · have : oid2 = oid := by simpa using hnew
          subst this
          refine ⟨_, List.mem_map_of_mem _ horbmem, ?_, ?_⟩
          · rw [hfid orb, horbid]
          · simp [horbid]

/-- `respawnFire` is the identity when the queue index is out of range. -/
theorem respawnFire_none (g : GameState) (k : ℕ) (r : Rand)
    (hk : g.pending[k]? = none) : respawnFire g k r = g := by
  unfold respawnFire
  rw [hk]

/-- A respawn callback firing after the round stopped only consumes its
queue entry. -/
theorem respawnFire_stopped (g : GameState) (k : ℕ) (r : Rand) (oid : ℕ)
    (hk : g.pending[k]? = some oid) (hrun : g.running = false) :
    respawnFire g k r = { g with pending := g.pending.eraseIdx k } := by
  unfold respawnFire
  rw [hk]
  simp [hrun]

/-- A respawn callback firing while the round runs consumes its queue
entry, splices the remembered orb out and pushes one fresh orb. -/
theorem respawnFire_running (g : GameState) (k : ℕ) (r : Rand) (oid : ℕ)
    (hk : g.pending[k]? = some oid) (hrun : g.running = true) :
    respawnFire g k r =
      { g with
        pending := g.pending.eraseIdx k
        orbs := g.orbs.eraseP (fun o => o.id == oid) ++ [makeOrb g.nextId g.reduced g.bounds r]
        nextId := g.nextId + 1 } := by
  unfold respawnFire
  rw [hk]
  simp [hrun]

/-- `respawnFire` preserves the orb-count invariant. -/
theorem C2Inv_respawnFire (g : GameState) (k : ℕ) (r : Rand) (h : C2Inv g) :
    C2Inv (respawnFire g k r) := by
  obtain ⟨h1, h2, h3, h4⟩ := h
  have hpe : (g.pending.eraseIdx k).Nodup :=
    List.Nodup.sublist (List.eraseIdx_sublist g.pending k) h2
  cases hk : g.pending[k]? with
  | none =>
    rw [respawnFire_none g k r hk]
    exact ⟨h1, h2, h3, h4⟩
  | some oid =>
    cases hrun : g.running with
    | false =>
      rw [respawnFire_stopped g k r oid hk hrun]
      refine ⟨h1, hpe, h3, fun habs => ?_⟩
      rw [show ({ g with pending := g.pending.eraseIdx k } : GameState).running
            = g.running from rfl, hrun] at habs
      cases habs
    | true =>
      rw [respawnFire_running g k r oid hk hrun]
      unfold C2Inv
      dsimp only
      obtain ⟨hlen, hpend⟩ := h4 hrun
      have hoidmem : oid ∈ g.pending := List.getElem?_mem hk
      obtain ⟨odead, hodmem, hodid, hoddead⟩ := hpend oid hoidmem
      have hpodead : (fun o : Orb => o.id == oid) odead = true := by simp [hodid]
      have hEsub : List.Sublist (g.orbs.eraseP (fun o => o.id == oid)) g.orbs :=
        List.eraseP_sublist g.orbs
      refine ⟨?_, hpe, ?_, fun _ => ⟨?_, ?_⟩⟩
      · rw [List.map_append]
        refine nodup_append_single ?_ ?_
        · exact List.Nodup.sublist (hEsub.map Orb.id) h1
        · intro habs
          obtain ⟨o2, ho2mem, ho2id⟩ := List.mem_map.mp habs
          have : o2 ∈ g.orbs := List.mem_of_mem_eraseP ho2mem
          have := h3 o2 this
          rw [show (makeOrb g.nextId g.reduced g.bounds r).id = g.nextId from rfl] at ho2id
          omega
      · intro o hmem
        rcases List.mem_append.mp hmem with hE | hN
        · have := h3 o (List.mem_of_mem_eraseP hE)
          omega
        · rw [List.mem_singleton.mp hN]
          rw [show (makeOrb g.nextId g.reduced g.bounds r).id = g.nextId from rfl]
          omega
      · rw [List.length_append, List.length_eraseP_of_mem hodmem hpodead]
        rw [hlen]
        rfl
      · intro oid2 hmem2
        have hin : oid2 ∈ g.pending := (List.eraseIdx_sublist g.pending k).subset hmem2
        have hne : oid2 ≠ oid := by
          intro he
          exact not_mem_eraseIdx_self h2 hk (he ▸ hmem2)
        obtain ⟨o2, ho2mem, ho2id, ho2dead⟩ := hpend oid2 hin
        have ho2keep : o2 ∈ g.orbs.eraseP (fun o => o.id == oid) := by
          refine (List.mem_eraseP_of_neg ?_).mpr ho2mem
          simp [ho2id, hne]
        exact ⟨o2, List.mem_append_left _ ho2keep, ho2id, ho2dead⟩

/-- `step` preserves the orb-count invariant. -/
theorem C2Inv_step (g : GameState) (dtRaw : ℚ) (h : C2Inv g) :
    C2Inv (step g dtRaw) := by
  obtain ⟨h1, h2, h3, h4⟩ := h
  unfold step
  split
  case isTrue hrun =>
    unfold C2Inv
    dsimp only
    refine ⟨?_, h2, ?_, fun _ => ⟨?_, ?_⟩⟩
    · rw [map_id_eq _ (stepOrb_id g.bounds _) g.orbs]
      exact h1
    · intro o hmem
      obtain ⟨o0, ho0, rfl⟩ := List.mem_map.mp hmem
      rw [stepOrb_id]
      exact h3 o0 ho0
    · simpa using (h4 hrun).1
    · intro oid hp
      obtain ⟨o2, hm, hid, hd⟩ := (h4 hrun).2 oid hp
      exact ⟨_, List.mem_map_of_mem _ hm, by rw [stepOrb_id, hid],
        by rw [stepOrb_alive]; exact hd⟩
  case isFalse => exact ⟨h1, h2, h3, h4⟩

/-- `endGame` preserves the orb-count invariant. -/
theorem C2Inv_endGame (g : GameState) (h : C2Inv g) : C2Inv (endGame g) := by
  obtain ⟨_, h2, _, _⟩ := h
  unfold endGame clearGame
  dsimp only
  split <;> exact ⟨by simp, h2, by simp, by simp⟩

/-- `timerTick` preserves the orb-count invariant. -/
theorem C2Inv_timerTick (g : GameState) (h : C2Inv g) : C2Inv (timerTick g) := by
  obtain ⟨h1, h2, h3, h4⟩ := h
  unfold timerTick
  split
  case isTrue hrun =>
    dsimp only
    split
    · exact C2Inv_endGame _ ⟨h1, h2, h3, h4⟩
    · exact ⟨h1, h2, h3, h4⟩
  case isFalse => exact ⟨h1, h2, h3, h4⟩

/-- `resize` preserves the orb-count invariant. -/
theorem C2Inv_resize (g : GameState) (b : Bounds) (h : C2Inv g) :
    C2Inv (resize g b) := by
  obtain ⟨h1, h2, h3, h4⟩ := h
  unfold resize
  unfold C2Inv
  dsimp only
  refine ⟨?_, h2, ?_, fun hr => ⟨?_, ?_⟩⟩
  · rw [map_id_eq
      (fun o => { o with x := clamp o.x MARGIN (b.w - MARGIN), y := clamp o.y MARGIN (b.h - MARGIN) })
      (fun o => rfl) g.orbs]
    exact h1
  · intro o hmem
    obtain ⟨o0, ho0, rfl⟩ := List.mem_map.mp hmem
    exact h3 o0 ho0
  · simpa using (h4 hr).1
  · intro oid hp
    obtain ⟨o2, hm, hid, hd⟩ := (h4 hr).2 oid hp
    exact ⟨_, List.mem_map_of_mem _ hm, hid, hd⟩

/-- `startGame` establishes the orb-count invariant, provided no respawn
callback scheduled before this round start is still pending. -/
theorem C2Inv_startGame (g : GameState) (b : Bounds) (rs : ℕ → Rand)
    (hp : g.pending = []) : C2Inv (startGame g b rs) := by
  unfold startGame clearGame
  unfold C2Inv
  dsimp only
  refine ⟨?_, by simp [hp], ?_, fun _ => ⟨by simp, ?_⟩⟩
  · rw [List.map_map]
    exact List.Nodup.map (fun a b hab => by
      simpa [makeOrb] using hab) (List.nodup_range ORB_COUNT)
  · intro o hmem
    obtain ⟨i, hi, rfl⟩ := List.mem_map.mp hmem
    have : i < ORB_COUNT := List.mem_range.mp hi
    show g.nextId + i < g.nextId + ORB_COUNT
    omega
  · intro oid hpend
    rw [hp] at hpend
    cases hpend

/-- Whether an event is a round (re)start. -/
def isStart : Ev → Bool
  | .restart _ _ => true
  | _ => false

/-- Every event other than a round start preserves the orb-count
invariant. -/
theorem C2Inv_applyEv (g : GameState) (e : Ev) (h : C2Inv g)
    (hns : isStart e = false) : C2Inv (applyEv g e) := by
  cases e with
  | hit oid t => exact C2Inv_hitOrb g oid t h
  | fire k r => exact C2Inv_respawnFire g k r h
  | frame dt => exact C2Inv_step g dt h
  | second => exact C2Inv_timerTick g h
  | remeasure b => exact C2Inv_resize g b h
  | restart b rs => simp [isStart] at hns

/-- The orb-count invariant propagates along any start-free event
sequence. -/
theorem C2Inv_run (g : GameState) (evs : List Ev) (h : C2Inv g)
    (hns : ∀ e ∈ evs, isStart e = false) : C2Inv (run g evs) := by
  induction evs generalizing g with
  | nil => exact h
  | cons e evs ih =>
    exact ih (applyEv g e) (C2Inv_applyEv g e h (hns e (by simp)))
      (fun e2 he2 => hns e2 (by simp [he2]))

/-- C2, counterexample: a round start, a hit, a second round start within
the pop delay, and then the stale respawn callback firing leave the new
round running with SEVEN active orbs — the callback's `indexOf` misses
(its orb was cleared), but `push(makeOrb())` still runs, so a mid-round
restart breaks the constant-count claim. -/
theorem C2_counterexample :
    (run (initState 0 boundsDemo false)
      [Ev.restart boundsDemo fun _ => randZero, Ev.hit 0 1000,
       Ev.restart boundsDemo fun _ => randZero, Ev.fire 0 randZero]).running = true ∧
    (run (initState 0 boundsDemo false)
      [Ev.restart boundsDemo fun _ => randZero, Ev.hit 0 1000,
       Ev.restart boundsDemo fun _ => randZero, Ev.fire 0 randZero]).orbs.length = 7 := by
  constructor <;> decide

/-- C2, amended: starting from a state with no stale pending respawn
callback, and for every interleaving of hits, delayed respawn callbacks,
animation frames, countdown ticks and resizes — but no further round
(re)start — the active orb count equals the configured spawn count
`ORB_COUNT` whenever the round is running.  (A restart while a hit's
respawn callback is still pending can push the count to seven, as the
counterexample shows, so restarts must be excluded.) -/
theorem C2_active_count (g : GameState) (b : Bounds) (rs : ℕ → Rand)
    (evs : List Ev) (hp : g.pending = [])
    (hns : ∀ e ∈ evs, isStart e = false)
    (hr : (run (startGame g b rs) evs).running = true) :
    (run (startGame g b rs) evs).orbs.length = ORB_COUNT :=
  ((C2Inv_run (startGame g b rs) evs (C2Inv_startGame g b rs hp) hns).2.2.2 hr).1

/-- Witness for `C2_active_count`: after a fresh start, a hit and its
respawn callback, the running round still holds exactly six orbs. -/
theorem C2_active_count_witness :
    (run (startGame (initState 0 boundsDemo false) boundsDemo fun _ => randZero)
      [Ev.hit 0 1000, Ev.fire 0 randZero]).orbs.length = ORB_COUNT :=
  C2_active_count (initState 0 boundsDemo false) boundsDemo (fun _ => randZero)
    [Ev.hit 0 1000, Ev.fire 0 randZero] rfl (by decide) (by decide)

/-! ### C4: orbs stay inside the padded bounds -/

/-- An orb's coordinates lie in the padded range `[MARGIN, size − MARGIN]`
on both axes of the play area. -/
def orbIn (b : Bounds) (o : Orb) : Prop :=
  MARGIN ≤ o.x ∧ o.x ≤ b.w - MARGIN ∧ MARGIN ≤ o.y ∧ o.y ≤ b.h - MARGIN

/-- The play area is at least 32 px wide and tall — large enough that both
`rand(20, size - 20)` spawning and margin clamping land inside the padded
range. -/
def boundsOK (b : Bounds) : Prop := 32 ≤ b.w ∧ 32 ≤ b.h

/-- The position draws of a spawn are genuine `Math.random()` outcomes,
i.e. lie in `[0, 1)`. -/
def randOK (r : Rand) : Prop := 0 ≤ r.u ∧ r.u < 1 ∧ 0 ≤ r.v ∧ r.v < 1

/-- Side conditions on an event under which in-bounds reasoning holds:
spawn randomness is in range and any newly measured bounds are at least
32 px each way. -/
def evOK : Ev → Prop
  | .fire _ r => randOK r
  | .remeasure b => boundsOK b
  | .restart b rs => boundsOK b ∧ ∀ i < ORB_COUNT, randOK (rs i)
  | _ => True

instance (b : Bounds) : Decidable (boundsOK b) := by
  unfold boundsOK
  infer_instance

instance (r : Rand) : Decidable (randOK r) := by
  unfold randOK
  infer_instance

instance (b : Bounds) (o : Orb) : Decidable (orbIn b o) := by
  unfold orbIn
  infer_instance

instance : DecidablePred evOK := fun e => by
  cases e <;> dsimp only [evOK] <;> infer_instance

/-- The coordinate produced by `rand(20, size - 20)` lands inside the
padded range whenever the surface is at least 32 px on that axis. -/
theorem spawn_coord_in {size u : ℚ} (hs : 32 ≤ size) (h0 : 0 ≤ u) (h1 : u < 1) :
    MARGIN ≤ u * (size - 20 - 20) + 20 ∧ u * (size - 20 - 20) + 20 ≤ size - MARGIN := by
  rw [show MARGIN = (12 : ℚ) from rfl]
  constructor
  · rcases le_or_lt 40 size with h | h
    · nlinarith [mul_nonneg h0 (by linarith : (0 : ℚ) ≤ size - 40)]
    · nlinarith [mul_nonneg (by linarith : (0 : ℚ) ≤ 1 - u) (by linarith : (0 : ℚ) ≤ 40 - size)]
  · rcases le_or_lt 40 size with h | h
    · nlinarith [mul_nonneg (by linarith : (0 : ℚ) ≤ 1 - u) (by linarith : (0 : ℚ) ≤ size - 40)]
    · nlinarith [mul_nonneg h0 (by linarith : (0 : ℚ) ≤ 40 - size)]

/-- A freshly spawned orb lies inside the padded bounds. -/
theorem makeOrb_orbIn (idn : ℕ) (red : Bool) (b : Bounds) (r : Rand)
    (hb : boundsOK b) (hr : randOK r) : orbIn b (makeOrb idn red b r) := by
  obtain ⟨hw, hh⟩ := hb
  obtain ⟨hu0, hu1, hv0, hv1⟩ := hr
  have hx := spawn_coord_in hw hu0 hu1
  have hy := spawn_coord_in hh hv0 hv1
  exact ⟨hx.1, hx.2, hy.1, hy.2⟩

/-- One bounce step keeps an orb inside the padded bounds. -/
theorem stepOrb_orbIn (b : Bounds) (dt : ℚ) (o : Orb) (hb : boundsOK b)
    (ho : orbIn b o) : orbIn b (stepOrb b dt o) := by
  obtain ⟨hw, hh⟩ := hb
  obtain ⟨h1, h2, h3, h4⟩ := ho
  unfold stepOrb
  split
  · unfold orbIn
    dsimp only
    rw [show MARGIN = (12 : ℚ) from rfl] at *
    refine ⟨?_, ?_, ?_, ?_⟩ <;> split_ifs <;> linarith
  · exact ⟨h1, h2, h3, h4⟩

/-- The clamped value lies inside the clamping range. -/
theorem clamp_mem {v mn mx : ℚ} (h : mn ≤ mx) :
    mn ≤ clamp v mn mx ∧ clamp v mn mx ≤ mx :=
  ⟨le_max_left _ _, max_le h (min_le_left _ _)⟩

/-- The in-bounds invariant: the measured bounds are large enough and
every orb of the array lies inside the padded range. -/
def C4Inv (g : GameState) : Prop :=
  boundsOK g.bounds ∧ ∀ o ∈ g.orbs, orbIn g.bounds o

/-- `hitOrb` preserves the in-bounds invariant (it moves no orb). -/
theorem C4Inv_hitOrb (g : GameState) (oid : ℕ) (t : ℚ) (h : C4Inv g) :
    C4Inv (hitOrb g oid t) := by
  obtain ⟨hb, ho⟩ := h
  cases hf : g.orbs.find? (fun o => o.id == oid) with
  | none =>
    rw [hitOrb_none g oid t hf]
    exact ⟨hb, ho⟩
  | some orb =>
    by_cases hg2 : g.running = true ∧ orb.alive = true
    case neg =>
      have hgb : (g.running && orb.alive) = false := by
        cases hx : g.running <;> cases hy : orb.alive <;> simp_all
      rw [hitOrb_guard g oid t orb hf hgb]
      exact ⟨hb, ho⟩
    case pos =>
      rw [hitOrb_eq g oid t orb hf hg2.1 hg2.2]
      refine ⟨hb, ?_⟩
      intro o hmem
      obtain ⟨o0, ho0, rfl⟩ := List.mem_map.mp hmem
      have horb := ho o0 ho0
      by_cases hid : (o0.id == oid) = true
      · rw [if_pos hid]
        exact horb
      · rw [if_neg hid]
        exact horb

/-- `respawnFire` preserves the in-bounds invariant when its spawn
randomness is in range. -/
theorem C4Inv_respawnFire (g : GameState) (k : ℕ) (r : Rand)
    (hr : randOK r) (h : C4Inv g) : C4Inv (respawnFire g k r) := by
  obtain ⟨hb, ho⟩ := h
  cases hk : g.pending[k]? with
  | none =>
    rw [respawnFire_none g k r hk]
    exact ⟨hb, ho⟩
  | some oid =>
    cases hrun : g.running with
    | false =>
      rw [respawnFire_stopped g k r oid hk hrun]
      exact ⟨hb, ho⟩
    | true =>
      rw [respawnFire_running g k r oid hk hrun]
      refine ⟨hb, ?_⟩
      intro o hmem
      rcases List.mem_append.mp hmem with hE | hN
      · exact ho o (List.mem_of_mem_eraseP hE)
      · rw [List.mem_singleton.mp hN]
        exact makeOrb_orbIn _ _ _ _ hb hr

/-- `step` preserves the in-bounds invariant. -/
theorem C4Inv_step (g : GameState) (dtRaw : ℚ) (h : C4Inv g) :
    C4Inv (step g dtRaw) := by
  obtain ⟨hb, ho⟩ := h
  unfold step
  split
  · refine ⟨hb, ?_⟩
    intro o hmem
    obtain ⟨o0, ho0, rfl⟩ := List.mem_map.mp hmem
    exact stepOrb_orbIn _ _ _ hb (ho o0 ho0)
  · exact ⟨hb, ho⟩

/-- `endGame` preserves the in-bounds invariant. -/
theorem C4Inv_endGame (g : GameState) (h : C4Inv g) : C4Inv (endGame g) := by
  obtain ⟨hb, _⟩ := h
  unfold endGame clearGame
  dsimp only
  split <;> exact ⟨hb, by simp⟩

/-- `timerTick` preserves the in-bounds invariant. -/
theorem C4Inv_timerTick (g : GameState) (h : C4Inv g) : C4Inv (timerTick g) := by
  obtain ⟨hb, ho⟩ := h
  unfold timerTick
  split
  case isTrue hrun =>
    dsimp only
    split
    · exact C4Inv_endGame _ ⟨hb, ho⟩
    · exact ⟨hb, ho⟩
  case isFalse => exact ⟨hb, ho⟩

/-- `resize` re-establishes the in-bounds invariant against the new
bounds, provided they are large enough. -/
theorem C4Inv_resize (g : GameState) (b : Bounds) (hbok : boundsOK b)
    (_h : C4Inv g) : C4Inv (resize g b) := by
  unfold resize
  refine ⟨hbok, ?_⟩
  intro o hmem
  obtain ⟨o0, ho0, rfl⟩ := List.mem_map.mp hmem
  have hw : MARGIN ≤ b.w - MARGIN := by
    have := hbok.1
    rw [show MARGIN = (12 : ℚ) from rfl]
    linarith
  have hh : MARGIN ≤ b.h - MARGIN := by
    have := hbok.2
    rw [show MARGIN = (12 : ℚ) from rfl]
    linarith
  exact ⟨(clamp_mem hw).1, (clamp_mem hw).2, (clamp_mem hh).1, (clamp_mem hh).2⟩

/-- `startGame` establishes the in-bounds invariant when the measured
bounds and spawn randomness are in range. -/
theorem C4Inv_startGame (g : GameState) (b : Bounds) (rs : ℕ → Rand)
    (hbok : boundsOK b) (hrs : ∀ i < ORB_COUNT, randOK (rs i)) :
    C4Inv (startGame g b rs) := by
  unfold startGame clearGame
  dsimp only
  refine ⟨hbok, ?_⟩
  intro o hmem
  obtain ⟨i, hi, rfl⟩ := List.mem_map.mp hmem
  exact makeOrb_orbIn _ _ _ _ hbok (hrs i (List.mem_range.mp hi))

/-- Every in-range event preserves the in-bounds invariant. -/
theorem C4Inv_applyEv (g : GameState) (e : Ev) (hok : evOK e) (h : C4Inv g) :
    C4Inv (applyEv g e) := by
  cases e with
  | hit oid t => exact C4Inv_hitOrb g oid t h
  | fire k r => exact C4Inv_respawnFire g k r hok h
  | frame dt => exact C4Inv_step g dt h
  | second => exact C4Inv_timerTick g h
  | remeasure b => exact C4Inv_resize g b hok h
  | restart b rs => exact C4Inv_startGame g b rs hok.1 hok.2

/-- The in-bounds invariant propagates along any in-range event
sequence. -/
theorem C4Inv_run (g : GameState) (evs : List Ev) (h : C4Inv g)
    (hevs : ∀ e ∈ evs, evOK e) : C4Inv (run g evs) := by
  induction evs generalizing g with
  | nil => exact h
  | cons e evs ih =>
    exact ih (applyEv g e) (C4Inv_applyEv g e (hevs e (by simp)) h)
      (fun e2 he2 => hevs e2 (by simp [he2]))

/-- C4: starting from any state satisfying the in-bounds invariant (in
particular a freshly loaded page with an empty orb array), after any
sequence of events whose spawn randomness is in `[0, 1)` and whose
measured bounds are at least 32 px — hits, respawn callbacks, frames of
any delta, countdown ticks, resizes and round starts — every alive orb
lies inside `[MARGIN, size − MARGIN]` on both axes, including immediately
after a spawn and immediately after a resize. -/
theorem C4_in_bounds (g : GameState) (evs : List Ev) (hg : C4Inv g)
    (hevs : ∀ e ∈ evs, evOK e) :
    ∀ o ∈ (run g evs).orbs, o.alive = true → orbIn (run g evs).bounds o :=
  fun o hmem _ => (C4Inv_run g evs hg hevs).2 o hmem

/-- The idle state `gIdle` satisfies the in-bounds invariant. -/
theorem gIdle_in : C4Inv gIdle := by
  norm_num [C4Inv, gIdle, boundsOK, orbIn, boundsDemo, MARGIN]

/-- Witness for `C4_in_bounds`: the orb held by `gIdle` is still inside
the padded bounds after a frame event. -/
theorem C4_in_bounds_witness :
    orbIn (run gIdle [Ev.frame 1]).bounds
      { id := 0, x := 20, y := 20, vx := 0, vy := 0, alive := true } :=
  C4_in_bounds gIdle [Ev.frame 1] gIdle_in (by decide)
    { id := 0, x := 20, y := 20, vx := 0, vy := 0, alive := true } (by decide) rfl

/-! ### C9: a round start fully reinitializes the session -/

/-- The per-orb function applied by `hitOrb` preserves identity. -/
theorem hitMap_id (oid : ℕ) (o : Orb) :
    (if o.id == oid then { o with alive := false } else o).id = o.id := by
  by_cases hb : (o.id == oid) = true <;> simp [hb]

/-- The per-orb function applied by `hitOrb` preserves `vx`. -/
theorem hitMap_vx (oid : ℕ) (o : Orb) :
    (if o.id == oid then { o with alive := false } else o).vx = o.vx := by
  by_cases hb : (o.id == oid) = true <;> simp [hb]

/-- The per-orb function applied by `hitOrb` preserves `vy`. -/
theorem hitMap_vy (oid : ℕ) (o : Orb) :
    (if o.id == oid then { o with alive := false } else o).vy = o.vy := by
  by_cases hb : (o.id == oid) = true <;> simp [hb]

/-- Every orb identity in the state, and the fresh-identity counter, is at
least `n`. -/
def idsAtLeast (n : ℕ) (g : GameState) : Prop :=
  n ≤ g.nextId ∧ ∀ o ∈ g.orbs, n ≤ o.id

/-- `endGame` preserves the identity lower bound. -/
theorem idsAtLeast_endGame (n : ℕ) (g : GameState) (h : idsAtLeast n g) :
    idsAtLeast n (endGame g) := by
  obtain ⟨hn, _⟩ := h
  unfold endGame clearGame
  dsimp only
  split <;> exact ⟨hn, by simp⟩

/-- Every event preserves the identity lower bound: identities only ever
move forward. -/
theorem idsAtLeast_applyEv (n : ℕ) (g : GameState) (e : Ev)
    (h : idsAtLeast n g) : idsAtLeast n (applyEv g e) := by
  obtain ⟨hn, ho⟩ := h
  cases e with
  | hit oid t =>
    show idsAtLeast n (hitOrb g oid t)
    cases hf : g.orbs.find? (fun o => o.id == oid) with
    | none =>
      rw [hitOrb_none g oid t hf]
      exact ⟨hn, ho⟩
    | some orb =>
      by_cases hg2 : g.running = true ∧ orb.alive = true
      case neg =>
        have hgb : (g.running && orb.alive) = false := by
          cases hx : g.running <;> cases hy : orb.alive <;> simp_all
        rw [hitOrb_guard g oid t orb hf hgb]
        exact ⟨hn, ho⟩
      case pos =>
        rw [hitOrb_eq g oid t orb hf hg2.1 hg2.2]
        refine ⟨hn, ?_⟩
        intro o hmem
        obtain ⟨o0, ho0, rfl⟩ := List.mem_map.mp hmem
        rw [hitMap_id]
        exact ho o0 ho0
  | fire k r =>
    show idsAtLeast n (respawnFire g k r)
    cases hk : g.pending[k]? with
    | none =>
      rw [respawnFire_none g k r hk]
      exact ⟨hn, ho⟩
    | some oid =>
      cases hrun : g.running with
      | false =>
        rw [respawnFire_stopped g k r oid hk hrun]
        exact ⟨hn, ho⟩
      | true =>
        rw [respawnFire_running g k r oid hk hrun]
        refine ⟨by show n ≤ g.nextId + 1; omega, ?_⟩
        intro o hmem
        rcases List.mem_append.mp hmem with hE | hN
        · exact ho o (List.mem_of_mem_eraseP hE)
        · rw [List.mem_singleton.mp hN]
          show n ≤ g.nextId
          omega
  | frame dt =>
    show idsAtLeast n (step g dt)
    unfold step
    split
    · refine ⟨hn, ?_⟩
      intro o hmem
      obtain ⟨o0, ho0, rfl⟩ := List.mem_map.mp hmem
      rw [stepOrb_id]
      exact ho o0 ho0
    · exact ⟨hn, ho⟩
  | second =>
    show idsAtLeast n (timerTick g)
    unfold timerTick
    split
    · dsimp only
      split
      · exact idsAtLeast_endGame n _ ⟨hn, ho⟩
      · exact ⟨hn, ho⟩
    · exact ⟨hn, ho⟩
  | remeasure b =>
    show idsAtLeast n (resize g b)
    unfold resize
    refine ⟨hn, ?_⟩
    intro o hmem
    obtain ⟨o0, ho0, rfl⟩ := List.mem_map.mp hmem
    exact ho o0 ho0
  | restart b rs =>
    show idsAtLeast n (startGame g b rs)
    unfold startGame clearGame
    dsimp only
    refine ⟨by show n ≤ g.nextId + ORB_COUNT; omega, ?_⟩
    intro o hmem
    obtain ⟨i, hi, rfl⟩ := List.mem_map.mp hmem
    show n ≤ g.nextId + i
    omega

/-- The identity lower bound propagates along any event sequence. -/
theorem idsAtLeast_run (n : ℕ) (g : GameState) (evs : List Ev)
    (h : idsAtLeast n g) : idsAtLeast n (run g evs) := by
  induction evs generalizing g with
  | nil => exact h
  | cons e evs ih => exact ih (applyEv g e) (idsAtLeast_applyEv n g e h)

/-- C9: invoking a round start fully reinitializes the session: score,
combo and the last-hit reference return to their initial value 0; the orb
array right after the call consists of exactly the `ORB_COUNT` freshly
spawned orbs; and no orb of the prior round (all of whose identities lie
below the spawn counter) is ever in the active set again — in particular a
respawn callback scheduled before the restart can never bring a prior
orb back, whatever events follow. -/
theorem C9_restart (g : GameState) (b : Bounds) (rs : ℕ → Rand)
    (hprev : ∀ o ∈ g.orbs, o.id < g.nextId) :
    (startGame g b rs).score = 0 ∧ (startGame g b rs).combo = 0 ∧
    (startGame g b rs).lastHitTime = 0 ∧
    (startGame g b rs).orbs
      = (List.range ORB_COUNT).map (fun i => makeOrb (g.nextId + i) g.reduced b (rs i)) ∧
    (∀ evs : List Ev, ∀ o2 ∈ (run (startGame g b rs) evs).orbs, ∀ o1 ∈ g.orbs,
      o2.id ≠ o1.id) := by
  refine ⟨rfl, rfl, rfl, rfl, ?_⟩
  have hstart : idsAtLeast g.nextId (startGame g b rs) := by
    unfold startGame clearGame
    dsimp only
    refine ⟨by show g.nextId ≤ g.nextId + ORB_COUNT; omega, ?_⟩
    intro o hmem
    obtain ⟨i, hi, rfl⟩ := List.mem_map.mp hmem
    show g.nextId ≤ g.nextId + i
    omega
  intro evs o2 h2 o1 h1
  have hlo := (idsAtLeast_run g.nextId _ evs hstart).2 o2 h2
  have hhi := hprev o1 h1
  omega

/-- Witness for `C9_restart`: restarting over the idle state `gIdle`
(which still holds one prior orb and one stale pending respawn) resets the
score, and even after the stale callback fires no orb of the prior round
is in the active set. -/
theorem C9_restart_witness :
    (startGame gIdle boundsDemo fun _ => randZero).score = 0 ∧
    (∀ o2 ∈ (run (startGame gIdle boundsDemo fun _ => randZero)
        [Ev.fire 0 randZero]).orbs,
      ∀ o1 ∈ gIdle.orbs, o2.id ≠ o1.id) :=
  ⟨(C9_restart gIdle boundsDemo (fun _ => randZero) (by decide)).1,
   (C9_restart gIdle boundsDemo (fun _ => randZero) (by decide)).2.2.2.2
     [Ev.fire 0 randZero]⟩

/-! ### C10: bounce preserves speed; reduced motion freezes orbs -/

/-- The absolute velocity components of the orb with identity `i` are
pinned at `(a, c)`, and `i` is already used by the counter. -/
def speedAt (i : ℕ) (a c : ℚ) (g : GameState) : Prop :=
  i < g.nextId ∧ ∀ o ∈ g.orbs, o.id = i → |o.vx| = a ∧ |o.vy| = c

/-- `endGame` preserves the pinned speed. -/
theorem speedAt_endGame (i : ℕ) (a c : ℚ) (g : GameState)
    (h : speedAt i a c g) : speedAt i a c (endGame g) := by
  obtain ⟨hn, _⟩ := h
  unfold endGame clearGame
  dsimp only
  split <;> exact ⟨hn, by simp⟩

/-- Every event preserves the pinned speed of an already-spawned orb
identity: hits, resizes and countdown ticks never touch velocities, the
bounce only flips signs, and newly spawned orbs always get fresh
identities. -/
theorem speedAt_applyEv (i : ℕ) (a c : ℚ) (g : GameState) (e : Ev)
    (h : speedAt i a c g) : speedAt i a c (applyEv g e) := by
  obtain ⟨hn, ho⟩ := h
  cases e with
  | hit oid t =>
    show speedAt i a c (hitOrb g oid t)
    cases hf : g.orbs.find? (fun o => o.id == oid) with
    | none =>
      rw [hitOrb_none g oid t hf]
      exact ⟨hn, ho⟩
    | some orb =>
      by_cases hg2 : g.running = true ∧ orb.alive = true
      case neg =>
        have hgb : (g.running && orb.alive) = false := by
          cases hx : g.running <;> cases hy : orb.alive <;> simp_all
        rw [hitOrb_guard g oid t orb hf hgb]
        exact ⟨hn, ho⟩
      case pos =>
        rw [hitOrb_eq g oid t orb hf hg2.1 hg2.2]
        refine ⟨hn, ?_⟩
        intro o hmem hid
        obtain ⟨o0, ho0, rfl⟩ := List.mem_map.mp hmem
        rw [hitMap_id] at hid
        rw [hitMap_vx, hitMap_vy]
        exact ho o0 ho0 hid
  | fire k r =>
    show speedAt i a c (respawnFire g k r)
    cases hk : g.pending[k]? with
    | none =>
      rw [respawnFire_none g k r hk]
      exact ⟨hn, ho⟩
    | some oid =>
      cases hrun : g.running with
      | false =>
        rw [respawnFire_stopped g k r oid hk hrun]
        exact ⟨hn, ho⟩
      | true =>
        rw [respawnFire_running g k r oid hk hrun]
        refine ⟨by show i < g.nextId + 1; omega, ?_⟩
        intro o hmem hid
        rcases List.mem_append.mp hmem with hE | hN
        · exact ho o (List.mem_of_mem_eraseP hE) hid
        · rw [List.mem_singleton.mp hN] at hid
          have : (makeOrb g.nextId g.reduced g.bounds r).id = g.nextId := rfl
          omega
  | frame dt =>
    show speedAt i a c (step g dt)
    unfold step
    split
    · refine ⟨hn, ?_⟩
      intro o hmem hid
      obtain ⟨o0, ho0, rfl⟩ := List.mem_map.mp hmem
      rw [stepOrb_id] at hid
      rw [stepOrb_abs_vx, stepOrb_abs_vy]
      exact ho o0 ho0 hid
    · exact ⟨hn, ho⟩
  | second =>
    show speedAt i a c (timerTick g)
    unfold timerTick
    split
    · dsimp only
      split
      · exact speedAt_endGame i a c _ ⟨hn, ho⟩
      · exact ⟨hn, ho⟩
    · exact ⟨hn, ho⟩
  | remeasure b =>
    show speedAt i a c (resize g b)
    unfold resize
    refine ⟨hn, ?_⟩
    intro o hmem hid
    obtain ⟨o0, ho0, rfl⟩ := List.mem_map.mp hmem
    exact ho o0 ho0 hid
  | restart b rs =>
    show speedAt i a c (startGame g b rs)
    unfold startGame clearGame
    dsimp only
    refine ⟨by show i < g.nextId + ORB_COUNT; omega, ?_⟩
    intro o hmem hid
    obtain ⟨j, hj, rfl⟩ := List.mem_map.mp hmem
    have : (makeOrb (g.nextId + j) g.reduced b (rs j)).id = g.nextId + j := rfl
    omega

/-- The pinned speed propagates along any event sequence. -/
theorem speedAt_run (i : ℕ) (a c : ℚ) (g : GameState) (evs : List Ev)
    (h : speedAt i a c g) : speedAt i a c (run g evs) := by
  induction evs generalizing g with
  | nil => exact h
  | cons e evs ih => exact ih (applyEv g e) (speedAt_applyEv i a c g e h)

/-- C10: (1) one bounce step preserves the absolute value of each
velocity component — it redirects the component away from the crossed edge
instead of accumulating or losing speed; (2) under reduced motion a spawn
assigns the zero velocity; (3) a zero-velocity orb inside the padded
bounds is completely fixed by a frame step, whatever the delta; and (4)
the absolute velocity components an orb carries are constant from spawn
until removal: they propagate unchanged through any sequence of hits,
respawn callbacks, frames, ticks, resizes and restarts. -/
theorem C10_speed :
    (∀ (b : Bounds) (dt : ℚ) (o : Orb),
      |(stepOrb b dt o).vx| = |o.vx| ∧ |(stepOrb b dt o).vy| = |o.vy|) ∧
    (∀ (idn : ℕ) (b : Bounds) (r : Rand),
      (makeOrb idn true b r).vx = 0 ∧ (makeOrb idn true b r).vy = 0) ∧
    (∀ (b : Bounds) (dt : ℚ) (o : Orb), orbIn b o →
      o.vx = 0 → o.vy = 0 → stepOrb b dt o = o) ∧
    (∀ (g : GameState) (i : ℕ) (a c : ℚ), i < g.nextId →
      (∀ o ∈ g.orbs, o.id = i → |o.vx| = a ∧ |o.vy| = c) →
      ∀ evs : List Ev, ∀ o2 ∈ (run g evs).orbs, o2.id = i →
        |o2.vx| = a ∧ |o2.vy| = c) := by
  refine ⟨fun b dt o => ⟨stepOrb_abs_vx b dt o, stepOrb_abs_vy b dt o⟩,
    fun idn b r => by simp [makeOrb], fun b dt o ho hvx hvy => ?_,
    fun g i a c hi h evs o2 h2 hid => (speedAt_run i a c g evs ⟨hi, h⟩).2 o2 h2 hid⟩
  obtain ⟨h1, h2, h3, h4⟩ := ho
  have hx1 : o.x + o.vx * dt = o.x := by rw [hvx]; ring
  have hy1 : o.y + o.vy * dt = o.y := by rw [hvy]; ring
  unfold stepOrb
  split
  · dsimp only
    simp only [hx1, hy1, if_neg (not_lt.mpr h1), if_neg (not_lt.mpr h2),
      if_neg (not_lt.mpr h3), if_neg (not_lt.mpr h4)]
  · rfl

/-- A motionless orb inside `boundsDemo`. -/
def orbZero : Orb := { id := 0, x := 20, y := 20, vx := 0, vy := 0, alive := true }

/-- `orbZero` lies inside the padded bounds of `boundsDemo`. -/
theorem orbZero_in : orbIn boundsDemo orbZero := by
  norm_num [orbIn, orbZero, boundsDemo, MARGIN]

/-- Witness for `C10_speed`: a frame step fixes the motionless `orbZero`,
and the zero speed of the orb in `gOne` survives a frame event. -/
theorem C10_speed_witness :
    stepOrb boundsDemo 1 orbZero = orbZero ∧
    (∀ o2 ∈ (run gOne [Ev.frame 1]).orbs, o2.id = 0 → |o2.vx| = 0 ∧ |o2.vy| = 0) :=
  ⟨C10_speed.2.2.1 boundsDemo 1 orbZero orbZero_in rfl rfl,
   C10_speed.2.2.2 gOne 0 0 0 (by decide) (by decide) [Ev.frame 1]⟩

end CatchNodes
